import Mathlib

/-!
Verification development for the PR-description → work-item synchronization
script (source: sync_pr_to_ado.py).  The directive parser and the four
reconcilers are shallowly embedded over lists of characters; the remote
work-item store is modelled as an explicit state record, and each remote
call the script issues is recorded in a trace.  Mutation calls may fail
(the remote can reject them), which is modelled by an environment of
per-call success flags; read calls are modelled as returning the true
remote state.
-/

namespace AdoSync

/-- Text is modelled as a list of characters (Python `str`). -/
abbrev Str := List Char

/-- Convert a Lean string literal into the character-list model. -/
def str (s : String) : Str := s.toList

/-- The whitespace class of the regexes (`\s`) and of Python `str.strip`,
restricted to its ASCII members. -/
def pySpace (c : Char) : Bool :=
  c = ' ' || c = '\t' || c = '\n' || c = '\r' || c = '\x0b' || c = '\x0c'

/-- Lower-casing used for the case-insensitive title comparison
(`title.lower()` in the source). -/
def lowerStr (s : Str) : Str := s.map Char.toLower

/-- One character of an `re.IGNORECASE` literal: the input character matches
the pattern character when they agree after lower-casing. -/
def charCI (c p : Char) : Bool := c.toLower = p.toLower

/-- Match a literal pattern case-insensitively at the head of the input,
returning the rest of the input. -/
def litCI : Str → Str → Option Str
  | [], s => some s
  | _ :: _, [] => none
  | p :: ps, c :: cs => if charCI c p then litCI ps cs else none

def isDigitChar (c : Char) : Bool := '0' ≤ c && c ≤ '9'

/-- Value of a digit string (`int(...)` on the `\d+` group). -/
def digitsVal (ds : Str) : Nat := ds.foldl (fun a c => a * 10 + (c.toNat - '0'.toNat)) 0

/-- Python `str.strip()`. -/
def pyStrip (s : Str) : Str := ((s.dropWhile pySpace).reverse.dropWhile pySpace).reverse

/-- Python `"..".split(",")`: split at every comma, keeping empty pieces. -/
def splitComma : Str → List Str
  | [] => [[]]
  | c :: rest =>
    if c = ',' then [] :: splitComma rest
    else
      match splitComma rest with
      | g :: gs => (c :: g) :: gs
      | [] => [[c]]

/-- Leftmost-match search: try the single-position matcher at every suffix,
left to right, as `re.search` does. -/
def searchFrom (m : Str → Option α) : Str → Option α
  | [] => none
  | s@(_ :: rest) =>
    match m s with
    | some r => some r
    | none => searchFrom m rest

/-- Matcher for `ADO\s*Card\s*:\s*(\d+)` (IGNORECASE) at one position.
`\s*` before a non-space literal is deterministic, so greedy skipping is
exact; the digit group is the maximal digit run. -/
def matchCardAt (s : Str) : Option Nat := do
  let s1 ← litCI (str "ADO") s
  let s2 ← litCI (str "Card") (s1.dropWhile pySpace)
  match s2.dropWhile pySpace with
  | ':' :: s3 =>
    let ds := (s3.dropWhile pySpace).takeWhile isDigitChar
    if ds = [] then none else some (digitsVal ds)
  | _ => none

/-- Does the card pattern occur anywhere in the text? -/
def adoCardOccurs : Str → Bool
  | [] => false
  | s@(_ :: rest) => (matchCardAt s).isSome || adoCardOccurs rest

/-- Source: extract_ado_card_number — first `ADO Card: <digits>` match,
parsed as an integer; none when the pattern does not occur. -/
def extract_ado_card_number (s : Str) : Option Nat :=
  searchFrom matchCardAt s

/-- Tail `\s*(.+?)(?:\n|$)` of the tags regex: greedy `\s*` (which also
crosses newlines) backtracking into a lazy group of non-newline characters,
which always ends exactly at the next newline or at the end of input. -/
def wsDotGroup : Str → Option Str
  | [] => none
  | c :: rest =>
    if pySpace c then
      match wsDotGroup rest with
      | some g => some g
      | none =>
        if c = '\n' then none
        else some ((c :: rest).takeWhile (fun x => !(x = '\n')))
    else some ((c :: rest).takeWhile (fun x => !(x = '\n')))

/-- Matcher for `ADO\s*Tags\s*:\s*(.+?)(?:\n|$)` (IGNORECASE) at one position. -/
def matchTagsAt (s : Str) : Option Str := do
  let s1 ← litCI (str "ADO") s
  let s2 ← litCI (str "Tags") (s1.dropWhile pySpace)
  match s2.dropWhile pySpace with
  | ':' :: s3 => wsDotGroup s3
  | _ => none

/-- Source: extract_tags — split the captured group on commas, strip each
piece, drop empty pieces. -/
def extract_tags (s : Str) : List Str :=
  match searchFrom matchTagsAt s with
  | some g => ((splitComma g).map pyStrip).filter (fun t => !(t = []))
  | none => []

/-- `\s*\n` of the block headers: greedy whitespace ending at the last
newline inside the whitespace run. -/
def wsNl : Str → Option Str
  | [] => none
  | c :: rest =>
    if pySpace c then
      match wsNl rest with
      | some r => some r
      | none => if c = '\n' then some rest else none
    else none

/-- `\s*` followed by a (greedy or lazy-before-newline) `.`-group inside the
bullet patterns: returns the captured group and the rest of the input after
it.  Greedy `\s*` backtracks when only whitespace remains. -/
def wsDotRest : Str → Option (Str × Str)
  | [] => none
  | c :: rest =>
    if pySpace c then
      match wsDotRest rest with
      | some p => some p
      | none =>
        if c = '\n' then none
        else
          some ((c :: rest).takeWhile (fun x => !(x = '\n')),
                (c :: rest).dropWhile (fun x => !(x = '\n')))
    else
      some ((c :: rest).takeWhile (fun x => !(x = '\n')),
            (c :: rest).dropWhile (fun x => !(x = '\n')))

def isBullet (c : Char) : Bool := c = '-' || c = '*'

/-- One iteration `\s*[-*]\s*.+\n?` of the bullet-block pattern: returns the
rest of the input after the iteration. -/
def bulletOnce (s : Str) : Option Str :=
  match s.dropWhile pySpace with
  | b :: r =>
    if isBullet b then
      match wsDotRest r with
      | some (_, rest) =>
        some (match rest with
              | '\n' :: rr => rr
              | _ => rest)
      | none => none
    else none
  | [] => none

/-- Iterate `bulletOnce` as long as it matches.  Every iteration consumes at
least two characters, so a fuel of the input length bounds the recursion. -/
def bulletManyAux : Nat → Str → Str
  | 0, s => s
  | fuel + 1, s =>
    match bulletOnce s with
    | some r => bulletManyAux fuel r
    | none => s

def bulletMany (s : Str) : Str := bulletManyAux s.length s

/-- The `\s*\n((?:\s*[-*]\s*.+\n?)+)` tail of the block patterns: requires at
least one bullet iteration and captures the span the iterations consume. -/
def blockAfterColon (s : Str) : Option Str := do
  let r ← wsNl s
  let r1 ← bulletOnce r
  let rest := bulletMany r1
  some (r.take (r.length - rest.length))

/-- Matcher for the children block header at one position. -/
def matchChildrenAt (s : Str) : Option Str := do
  let s1 ← litCI (str "ADO") s
  let s2 ← litCI (str "Children") (s1.dropWhile pySpace)
  match s2.dropWhile pySpace with
  | ':' :: s3 => blockAfterColon s3
  | _ => none

/-- Matcher for the links block header at one position. -/
def matchLinksAt (s : Str) : Option Str := do
  let s1 ← litCI (str "ADO") s
  let s2 ← litCI (str "Links") (s1.dropWhile pySpace)
  match s2.dropWhile pySpace with
  | ':' :: s3 => blockAfterColon s3
  | _ => none

/-- `re.findall(r"[-*]\s*(.+)", block)`: scan for bullets, capture each
bullet's content, resume after the end of each match.  Every successful
match consumes at least two characters, so the input length is enough fuel. -/
def findBulletsAux : Nat → Str → List Str
  | 0, _ => []
  | fuel + 1, s =>
    match s with
    | [] => []
    | c :: rest =>
      if isBullet c then
        match wsDotRest rest with
        | some (g, r) => g :: findBulletsAux fuel r
        | none => findBulletsAux fuel rest
      else findBulletsAux fuel rest

def findBullets (s : Str) : List Str := findBulletsAux s.length s

/-- Source: extract_children — bullet items of the children block, stripped,
empty items dropped. -/
def extract_children (s : Str) : List Str :=
  match searchFrom matchChildrenAt s with
  | some block => ((findBullets block).map pyStrip).filter (fun t => !(t = []))
  | none => []

/-- Source: extract_links, per-line step — strip, skip empty lines, split on
the first pipe character into url and name (url doubles as the name when
there is no pipe), skip empty urls. -/
def parseLinkLine (line : Str) : Option (Str × Str) :=
  let l := pyStrip line
  if l = [] then none
  else
    let u :=
      if l.contains '|' then pyStrip (l.takeWhile (fun c => !(c = '|')))
      else l
    let n :=
      if l.contains '|' then pyStrip ((l.dropWhile (fun c => !(c = '|'))).tail)
      else l
    if u = [] then none else some (u, n)

/-- Source: extract_links — bullet items of the links block, parsed into
(url, display name) pairs. -/
def extract_links (s : Str) : List (Str × Str) :=
  match searchFrom matchLinksAt s with
  | some block => (findBullets block).filterMap parseLinkLine
  | none => []

/-- Lookahead `(?=ADO\s)` of the comment terminator. -/
def adoDirectiveNext (s : Str) : Bool :=
  match litCI (str "ADO") s with
  | some (c :: _) => pySpace c
  | _ => false

/-- Does the comment terminator `(?:\n(?=ADO\s)|$)` match at this suffix?
`$` (without MULTILINE) matches at the end of input or just before a
trailing newline. -/
def commentTermHere (s : Str) : Bool :=
  match s with
  | [] => true
  | '\n' :: rest => adoDirectiveNext rest || rest = []
  | _ => false

/-- Lazy extension of the DOTALL group: keep taking characters until the
terminator matches. -/
def lazyGrow : Str → Str
  | [] => []
  | c :: rest => if commentTermHere (c :: rest) then [] else c :: lazyGrow rest

/-- Tail `\s*(.+?)(?:\n(?=ADO\s)|$)` of the comment regex (DOTALL): greedy
`\s*` backtracks one character when only whitespace remains, in which case
the group is that single whitespace character and `$` closes the match. -/
def commentTailGroup : Str → Option Str
  | [] => none
  | c :: rest =>
    if pySpace c then
      match commentTailGroup rest with
      | some g => some g
      | none => some [c]
    else some (c :: lazyGrow rest)

/-- Matcher for the comment directive at one position. -/
def matchCommentAt (s : Str) : Option Str := do
  let s1 ← litCI (str "ADO") s
  let s2 ← litCI (str "Comment") (s1.dropWhile pySpace)
  match s2.dropWhile pySpace with
  | ':' :: s3 => commentTailGroup s3
  | _ => none

/-- Source: extract_comment — captured group of the first match, stripped. -/
def extract_comment (s : Str) : Option Str :=
  (searchFrom matchCommentAt s).map pyStrip

/-! ## Remote state model

The remote work item being synchronized: its two patched scalar fields,
the placement fields the child reconciler inherits, its child items (one
hierarchy relation each, carrying the child's id and title), its
hyperlink relations and its comments. -/

structure ChildItem where
  id : Nat
  title : Str
deriving DecidableEq

structure HyperlinkRel where
  url : Str
  name : Str
deriving DecidableEq

structure WIComment where
  id : Nat
  text : Str
deriving DecidableEq

structure WorkItemState where
  description : Str
  tags : Option Str
  areaPath : Str
  iterationPath : Str
  children : List ChildItem
  hyperlinks : List HyperlinkRel
  comments : List WIComment
deriving DecidableEq

/-- One operation of a JSON-patch document sent to the work-item API. -/
inductive PatchOp where
  | addField (path : String) (value : Str)
  | replaceField (path : String) (value : Str)
  | removeField (path : String)
  | addRelation (rel : String) (url : Str) (comment : Option Str)
deriving DecidableEq

/-- One remote call issued by the script, as recorded in the run trace. -/
inductive AdoCall where
  | updateWorkItem (id : Nat) (ops : List PatchOp)
  | createWorkItem (ty : String) (ops : List PatchOp)
  | queryChildren (id : Nat)
  | getWorkItem (id : Nat)
  | getComments (id : Nat)
  | addComment (id : Nat) (text : Str)
  | updateComment (id : Nat) (commentId : Nat) (text : Str)
deriving DecidableEq

/-- The remote's disposition towards the run's mutation calls, plus the ids
it assigns to created records.  Reads are modelled as returning the true
remote state; each kind of mutation can succeed or be rejected per call. -/
structure Env where
  baseUrl : Str
  descPatchOk : Bool
  createOk : Nat → Bool
  newChildId : Nat → Nat
  linkOk : Nat → Bool
  commentMutOk : Bool
  newCommentId : Nat

/-- An environment in which every mutation succeeds. -/
def allOkEnv : Env :=
  { baseUrl := str "BASE", descPatchOk := true, createOk := fun _ => true,
    newChildId := fun k => 100 + k, linkOk := fun _ => true,
    commentMutOk := true, newCommentId := 500 }

/-- A work item with no fields set and no relations or comments. -/
def emptyWI : WorkItemState := ⟨[], none, [], [], [], [], []⟩

/-! ## Reconcilers -/

/-- Tags are stored as a semicolon-separated string. -/
def joinTags (tags : List Str) : Str := List.intercalate (str "; ") tags

/-- Source: update_work_item_description_and_tags — always replace the
description; replace the tags when some were extracted, remove the Tags
field otherwise. -/
def descTagsOps (desc : Str) (tags : List Str) : List PatchOp :=
  [PatchOp.replaceField "/fields/System.Description" desc] ++
  (if tags = [] then [PatchOp.removeField "/fields/System.Tags"]
   else [PatchOp.replaceField "/fields/System.Tags" (joinTags tags)])

/-- Source: get_existing_child_titles — the lowercased titles of the current
children (the source keys a dict by them; only key membership feeds the
skip decision, the id value only feeds a log line). -/
def get_existing_child_titles (cs : List ChildItem) : List Str :=
  cs.map fun c => lowerStr c.title

def workItemUrl (base : Str) (id : Nat) : Str :=
  base ++ str "/wit/workitems/" ++ Nat.toDigits 10 id

/-- Source: sync_child_items, creation patch document — Title in the
requested casing, reverse-hierarchy relation to the parent, and AreaPath /
IterationPath copied from the parent when those parent fields are
non-empty. -/
def childCreateOps (base : Str) (pid : Nat) (area iter title : Str) : List PatchOp :=
  [PatchOp.addField "/fields/System.Title" title,
   PatchOp.addRelation "System.LinkTypes.Hierarchy-Reverse" (workItemUrl base pid) none]
  ++ (if area = [] then [] else [PatchOp.addField "/fields/System.AreaPath" area])
  ++ (if iter = [] then [] else [PatchOp.addField "/fields/System.IterationPath" iter])

/-- The per-title loop of sync_child_items.  `existing` is the snapshot of
lowercased child titles taken before the loop; the source never refreshes
it after a creation.  `k` numbers the creation attempts for the
environment's per-call success flags. -/
def syncChildrenLoop (env : Env) (pid : Nat) (area iter : Str) (existing : List Str) :
    List Str → Nat → WorkItemState → WorkItemState × List AdoCall
  | [], _, st => (st, [])
  | t :: ts, k, st =>
    if lowerStr t ∈ existing then
      syncChildrenLoop env pid area iter existing ts k st
    else
      let call := AdoCall.createWorkItem "Task" (childCreateOps env.baseUrl pid area iter t)
      let st1 :=
        if env.createOk k
        then { st with children := st.children ++ [⟨env.newChildId k, t⟩] }
        else st
      let p := syncChildrenLoop env pid area iter existing ts (k + 1) st1
      (p.1, call :: p.2)

/-- Source: sync_child_items — nothing to do without requested titles;
otherwise query the existing children, fetch the parent for its placement
fields, then create the titles whose lowercased form is not among the
existing ones.  A failed creation is logged and the loop continues. -/
def sync_child_items (env : Env) (pid : Nat) (titles : List Str) (st : WorkItemState) :
    WorkItemState × List AdoCall :=
  if titles = [] then (st, [])
  else
    let existing := get_existing_child_titles st.children
    let p := syncChildrenLoop env pid st.areaPath st.iterationPath existing titles 0 st
    (p.1, AdoCall.queryChildren pid :: AdoCall.getWorkItem pid :: p.2)

/-- Marker used to identify comments created by this sync tool. -/
def COMMENT_MARKER : Str := str "<!-- ado-sync-comment -->"

/-- Does the haystack start with the needle? -/
def leadsWith : Str → Str → Bool
  | [], _ => true
  | _ :: _, [] => false
  | a :: as, b :: bs => a = b && leadsWith as bs

/-- Python `needle in haystack`: substring containment. -/
def containsSub (n : Str) : Str → Bool
  | [] => n = []
  | s@(_ :: rest) => leadsWith n s || containsSub n rest

/-- Overwrite the text of the first comment whose body contains the marker. -/
def overwriteFirstMarked (text : Str) : List WIComment → List WIComment
  | [] => []
  | c :: cs =>
    if containsSub COMMENT_MARKER c.text then { c with text := text } :: cs
    else c :: overwriteFirstMarked text cs

/-- Source: sync_comment — no-op on empty text; otherwise compose
marker + newline + text, fetch the comments, update the first one whose
body contains the marker (and return without creating anything), or create
a new comment when none contains it. -/
def sync_comment (env : Env) (wid : Nat) (commentText : Str) (st : WorkItemState) :
    WorkItemState × List AdoCall :=
  if commentText = [] then (st, [])
  else
    let full := COMMENT_MARKER ++ '\n' :: commentText
    match st.comments.find? (fun c => containsSub COMMENT_MARKER c.text) with
    | some c =>
      let st1 :=
        if env.commentMutOk
        then { st with comments := overwriteFirstMarked full st.comments }
        else st
      (st1, [AdoCall.getComments wid, AdoCall.updateComment wid c.id full])
    | none =>
      let st1 :=
        if env.commentMutOk
        then { st with comments := st.comments ++ [⟨env.newCommentId, full⟩] }
        else st
      (st1, [AdoCall.getComments wid, AdoCall.addComment wid full])

/-- Source: get_existing_hyperlinks — the urls of the relations of kind
Hyperlink (the source collects them into a set; only membership is used). -/
def get_existing_hyperlinks (st : WorkItemState) : List Str :=
  st.hyperlinks.map fun h => h.url

/-- The patch document adding one hyperlink relation, the name as its
comment attribute. -/
def linkAddOps (url name : Str) : List PatchOp :=
  [PatchOp.addRelation "Hyperlink" url (some name)]

/-- The per-link loop of sync_hyperlinks.  `existing` is the snapshot of
urls taken before the loop; the source never refreshes it after an add. -/
def syncLinksLoop (env : Env) (wid : Nat) (existing : List Str) :
    List (Str × Str) → Nat → WorkItemState → WorkItemState × List AdoCall
  | [], _, st => (st, [])
  | (url, name) :: ls, k, st =>
    if url ∈ existing then
      syncLinksLoop env wid existing ls k st
    else
      let call := AdoCall.updateWorkItem wid (linkAddOps url name)
      let st1 :=
        if env.linkOk k
        then { st with hyperlinks := st.hyperlinks ++ [⟨url, name⟩] }
        else st
      let p := syncLinksLoop env wid existing ls (k + 1) st1
      (p.1, call :: p.2)

/-- Source: sync_hyperlinks — nothing to do without requested links;
otherwise fetch the work item's relations and add each link whose url is
not already present.  A failed add is logged and the loop continues. -/
def sync_hyperlinks (env : Env) (wid : Nat) (links : List (Str × Str)) (st : WorkItemState) :
    WorkItemState × List AdoCall :=
  if links = [] then (st, [])
  else
    let existing := get_existing_hyperlinks st
    let p := syncLinksLoop env wid existing links 0 st
    (p.1, AdoCall.getWorkItem wid :: p.2)

/-! ## The run -/

inductive RunErr where
  | emptyDescription
  | missingCardNumber
  | descPatchFailed
deriving DecidableEq

structure RunResult where
  state : WorkItemState
  calls : List AdoCall
  exitCode : Nat
  err : Option RunErr
deriving DecidableEq

/-- Main's `if children:` guard around the child reconciler. -/
def childStep (env : Env) (card : Nat) (children : List Str) (st : WorkItemState) :
    WorkItemState × List AdoCall :=
  if children = [] then (st, []) else sync_child_items env card children st

/-- Main's `if comment:` guard around the comment reconciler. -/
def commentStep (env : Env) (card : Nat) (comment : Str) (st : WorkItemState) :
    WorkItemState × List AdoCall :=
  if comment = [] then (st, []) else sync_comment env card comment st

/-- Main's `if links:` guard around the hyperlink reconciler. -/
def linkStep (env : Env) (card : Nat) (links : List (Str × Str)) (st : WorkItemState) :
    WorkItemState × List AdoCall :=
  if links = [] then (st, []) else sync_hyperlinks env card links st

/-- Source: main — abort on an empty description; abort when the card
number is missing or extracted as 0 (Python falsiness of the integer);
run the mandatory description/tags patch and abort when it fails; then run
the child, comment and hyperlink reconcilers for the directives that are
present and exit 0. -/
def runSync (env : Env) (desc : Str) (st : WorkItemState) : RunResult :=
  if desc = [] then ⟨st, [], 1, some RunErr.emptyDescription⟩
  else
    match extract_ado_card_number desc with
    | none => ⟨st, [], 1, some RunErr.missingCardNumber⟩
    | some card =>
      if card = 0 then ⟨st, [], 1, some RunErr.missingCardNumber⟩
      else
        let tags := extract_tags desc
        let patchCall := AdoCall.updateWorkItem card (descTagsOps desc tags)
        if env.descPatchOk then
          let st1 := { st with description := desc,
                               tags := if tags = [] then none else some (joinTags tags) }
          let p2 := childStep env card (extract_children desc) st1
          let p3 := commentStep env card ((extract_comment desc).getD []) p2.1
          let p4 := linkStep env card (extract_links desc) p3.1
          ⟨p4.1, patchCall :: (p2.2 ++ p3.2 ++ p4.2), 0, none⟩
        else ⟨st, [patchCall], 1, some RunErr.descPatchFailed⟩

/-- Iterated application of the run's state effect, one environment per
application, against the same directive text. -/
def applyRuns (envs : List Env) (desc : Str) (st : WorkItemState) : WorkItemState :=
  envs.foldl (fun s e => (runSync e desc s).state) st

/-! ## Observations on traces and concrete scenarios -/

/-- The patch documents of the work-item creation calls of a trace. -/
def createCallsOf : List AdoCall → List (List PatchOp)
  | [] => []
  | AdoCall.createWorkItem _ ops :: rest => ops :: createCallsOf rest
  | _ :: rest => createCallsOf rest

/-- The patch documents of the work-item update calls of a trace. -/
def updateCallsOf : List AdoCall → List (List PatchOp)
  | [] => []
  | AdoCall.updateWorkItem _ ops :: rest => ops :: updateCallsOf rest
  | _ :: rest => updateCallsOf rest

/-- The calls the child reconciler issues, as a function of the data they
depend on: the base url, the parent id, the requested titles and the
parent's children and placement fields.  Per-call success flags do not
enter. -/
def childCallsPure (base : Str) (pid : Nat) (ts : List Str)
    (cs : List ChildItem) (area iter : Str) : List AdoCall :=
  if ts = [] then []
  else
    AdoCall.queryChildren pid :: AdoCall.getWorkItem pid ::
      (ts.filter fun t => !(decide (lowerStr t ∈ get_existing_child_titles cs))).map
        (fun t => AdoCall.createWorkItem "Task" (childCreateOps base pid area iter t))

/-- The calls the comment reconciler issues, as a function of the comment
text and the work item's comments. -/
def commentCallsPure (wid : Nat) (text : Str) (comments : List WIComment) : List AdoCall :=
  if text = [] then []
  else
    match comments.find? (fun c => containsSub COMMENT_MARKER c.text) with
    | some c =>
      [AdoCall.getComments wid, AdoCall.updateComment wid c.id (COMMENT_MARKER ++ '\n' :: text)]
    | none =>
      [AdoCall.getComments wid, AdoCall.addComment wid (COMMENT_MARKER ++ '\n' :: text)]

/-- The calls the hyperlink reconciler issues, as a function of the
requested links and the work item's hyperlink relations. -/
def linkCallsPure (wid : Nat) (lnks : List (Str × Str)) (hls : List HyperlinkRel) : List AdoCall :=
  if lnks = [] then []
  else
    AdoCall.getWorkItem wid ::
      (lnks.filter fun l => !(decide (l.1 ∈ hls.map fun h => h.url))).map
        (fun l => AdoCall.updateWorkItem wid (linkAddOps l.1 l.2))

/-- The end-to-end scenario input of the spec's testable properties. -/
def c3Desc : Str :=
  str "Ship it.\n\nADO Card: 42\nADO Tags: bug, urgent\nADO Children:\n- write tests\n- update docs\n"

/-- A directive text whose requested child titles differ only in case and
whose requested links repeat one url. -/
def c1Desc : Str :=
  str "ADO Card: 9\nADO Children:\n- Add tests\n- ADD TESTS\nADO Links:\n- https://x\n- https://x | Other\n"

/-- The input of the empty-tags-directive property: an `ADO Tags:` line with
nothing after the colon, followed by another line. -/
def c2Desc : Str := str "ADO Card: 7\nADO Tags:\nhello"

/-- An environment in which the remote rejects the description/tags patch. -/
def failPatchEnv : Env := { allOkEnv with descPatchOk := false }

/-- A work item carrying a child whose title differs from a requested one
only in case, and a non-empty area path to inherit. -/
def c4State : WorkItemState :=
  { emptyWI with areaPath := str "AreaZ", children := [⟨10, str "ADD TESTS"⟩] }

/-- A work item already linked to https://x under a different display name. -/
def c5State : WorkItemState :=
  { emptyWI with hyperlinks := [⟨str "https://x", str "NameB"⟩] }

/-- A work item with two marker-carrying comments after a plain one. -/
def c6State : WorkItemState :=
  { emptyWI with comments :=
      [⟨1, str "hi"⟩,
       ⟨2, str "note <!-- ado-sync-comment --> body"⟩,
       ⟨3, str "<!-- ado-sync-comment --> other"⟩] }

/-! ## Helper lemmas -/

theorem card_occurs_false_search_none (s : Str) (h : adoCardOccurs s = false) :
    extract_ado_card_number s = none := by
  induction s with
  | nil => rfl
  | cons c rest ih =>
    rw [adoCardOccurs, Bool.or_eq_false_iff] at h
    rw [extract_ado_card_number, searchFrom]
    rcases hm : matchCardAt (c :: rest) with _ | n
    · exact ih h.2
    · rw [hm] at h
      simp at h

theorem syncChildrenLoop_calls (env : Env) (pid : Nat) (area iter : Str) (ex : List Str)
    (ts : List Str) (k : Nat) (st : WorkItemState) :
    (syncChildrenLoop env pid area iter ex ts k st).2
      = (ts.filter fun t => !(decide (lowerStr t ∈ ex))).map
          (fun t => AdoCall.createWorkItem "Task" (childCreateOps env.baseUrl pid area iter t)) := by
  induction ts generalizing k st with
  | nil => rfl
  | cons t ts ih =>
    by_cases h : lowerStr t ∈ ex
    · simp [syncChildrenLoop, h, List.filter_cons, ih]
    · simp [syncChildrenLoop, h, List.filter_cons, ih]

theorem syncChildrenLoop_preserves (env : Env) (pid : Nat) (area iter : Str) (ex : List Str)
    (ts : List Str) (k : Nat) (st : WorkItemState) :
    (syncChildrenLoop env pid area iter ex ts k st).1.comments = st.comments ∧
    (syncChildrenLoop env pid area iter ex ts k st).1.hyperlinks = st.hyperlinks := by
  induction ts generalizing k st with
  | nil => exact ⟨rfl, rfl⟩
  | cons t ts ih =>
    by_cases h : lowerStr t ∈ ex
    · simpa [syncChildrenLoop, h] using ih k st
    · by_cases hc : env.createOk k
      · simpa [syncChildrenLoop, h, hc] using ih (k + 1) _
      · simpa [syncChildrenLoop, h, hc] using ih (k + 1) st

theorem syncChildrenLoop_children_nodup (env : Env) (pid : Nat) (area iter : Str)
    (ex : List Str) (ts : List Str) (k : Nat) (st : WorkItemState)
    (hts : (ts.map lowerStr).Nodup)
    (hst : (st.children.map fun c => lowerStr c.title).Nodup)
    (hdis : ∀ t ∈ ts, lowerStr t ∉ ex →
      lowerStr t ∉ st.children.map fun c => lowerStr c.title) :
    ((syncChildrenLoop env pid area iter ex ts k st).1.children.map
      fun c => lowerStr c.title).Nodup := by
  induction ts generalizing k st with
  | nil => exact hst
  | cons t ts ih =>
    rw [List.map_cons, List.nodup_cons] at hts
    by_cases h : lowerStr t ∈ ex
    · simp only [syncChildrenLoop, if_pos h]
      exact ih k st hts.2 hst (fun u hu => hdis u (List.mem_cons_of_mem _ hu))
    · simp only [syncChildrenLoop, if_neg h]
      by_cases hc : env.createOk k
      · simp only [if_pos hc]
        refine ih (k + 1) _ hts.2 ?_ ?_
        · simp only [List.map_append, List.map_cons, List.map_nil]
          rw [List.nodup_append]
          refine ⟨hst, List.nodup_singleton _, ?_⟩
          intro a ha hb
          rw [List.mem_singleton] at hb
          subst hb
          exact hdis t (List.mem_cons_self t ts) h ha
        · intro u hu hex
          simp only [List.map_append, List.map_cons, List.map_nil, List.mem_append,
            List.mem_singleton]
          rintro (hin | heq)
          · exact hdis u (List.mem_cons_of_mem _ hu) hex hin
          · exact hts.1 (heq ▸ List.mem_map_of_mem lowerStr hu)
      · simp only [if_neg hc]
        exact ih (k + 1) st hts.2 hst (fun u hu => hdis u (List.mem_cons_of_mem _ hu))

theorem sync_child_items_calls (env : Env) (pid : Nat) (ts : List Str) (st : WorkItemState) :
    (sync_child_items env pid ts st).2
      = childCallsPure env.baseUrl pid ts st.children st.areaPath st.iterationPath := by
  by_cases h : ts = []
  · simp [sync_child_items, childCallsPure, h]
  · simp [sync_child_items, childCallsPure, h, syncChildrenLoop_calls,
      get_existing_child_titles]

theorem sync_child_items_preserves (env : Env) (pid : Nat) (ts : List Str)
    (st : WorkItemState) :
    (sync_child_items env pid ts st).1.comments = st.comments ∧
    (sync_child_items env pid ts st).1.hyperlinks = st.hyperlinks := by
  by_cases h : ts = []
  · simp [sync_child_items, h]
  · simpa [sync_child_items, h] using
      syncChildrenLoop_preserves env pid st.areaPath st.iterationPath
        (get_existing_child_titles st.children) ts 0 st

theorem sync_child_items_children_nodup (env : Env) (pid : Nat) (ts : List Str)
    (st : WorkItemState) (hts : (ts.map lowerStr).Nodup)
    (hst : (st.children.map fun c => lowerStr c.title).Nodup) :
    ((sync_child_items env pid ts st).1.children.map fun c => lowerStr c.title).Nodup := by
  by_cases h : ts = []
  · simpa [sync_child_items, h] using hst
  · simp only [sync_child_items, if_neg h]
    exact syncChildrenLoop_children_nodup env pid st.areaPath st.iterationPath _ ts 0 st
      hts hst (fun t _ hex => by simpa [get_existing_child_titles] using hex)

theorem syncLinksLoop_calls (env : Env) (wid : Nat) (ex : List Str)
    (ls : List (Str × Str)) (k : Nat) (st : WorkItemState) :
    (syncLinksLoop env wid ex ls k st).2
      = (ls.filter fun l => !(decide (l.1 ∈ ex))).map
          (fun l => AdoCall.updateWorkItem wid (linkAddOps l.1 l.2)) := by
  induction ls generalizing k st with
  | nil => rfl
  | cons l ls ih =>
    obtain ⟨url, name⟩ := l
    by_cases h : url ∈ ex
    · simp [syncLinksLoop, h, List.filter_cons, ih]
    · simp [syncLinksLoop, h, List.filter_cons, ih]

theorem syncLinksLoop_preserves (env : Env) (wid : Nat) (ex : List Str)
    (ls : List (Str × Str)) (k : Nat) (st : WorkItemState) :
    (syncLinksLoop env wid ex ls k st).1.comments = st.comments ∧
    (syncLinksLoop env wid ex ls k st).1.children = st.children := by
  induction ls generalizing k st with
  | nil => exact ⟨rfl, rfl⟩
  | cons l ls ih =>
    obtain ⟨url, name⟩ := l
    by_cases h : url ∈ ex
    · simpa [syncLinksLoop, h] using ih k st
    · by_cases hc : env.linkOk k
      · simpa [syncLinksLoop, h, hc] using ih (k + 1) _
      · simpa [syncLinksLoop, h, hc] using ih (k + 1) st

theorem syncLinksLoop_urls_nodup (env : Env) (wid : Nat) (ex : List Str)
    (ls : List (Str × Str)) (k : Nat) (st : WorkItemState)
    (hls : (ls.map Prod.fst).Nodup)
    (hst : (st.hyperlinks.map fun h => h.url).Nodup)
    (hdis : ∀ l ∈ ls, l.1 ∉ ex → l.1 ∉ st.hyperlinks.map fun h => h.url) :
    ((syncLinksLoop env wid ex ls k st).1.hyperlinks.map fun h => h.url).Nodup := by
  induction ls generalizing k st with
  | nil => exact hst
  | cons l ls ih =>
    obtain ⟨url, name⟩ := l
    rw [List.map_cons, List.nodup_cons] at hls
    by_cases h : url ∈ ex
    · simp only [syncLinksLoop, if_pos h]
      exact ih k st hls.2 hst (fun u hu => hdis u (List.mem_cons_of_mem _ hu))
    · simp only [syncLinksLoop, if_neg h]
      by_cases hc : env.linkOk k
      · simp only [if_pos hc]
        refine ih (k + 1) _ hls.2 ?_ ?_
        · simp only [List.map_append, List.map_cons, List.map_nil]
          rw [List.nodup_append]
          refine ⟨hst, List.nodup_singleton _, ?_⟩
          intro a ha hb
          have hb2 : a = url := List.mem_singleton.mp hb
          exact hdis (url, name) (List.mem_cons_self _ ls) h (hb2 ▸ ha)
        · intro u hu hex
          simp only [List.map_append, List.map_cons, List.map_nil, List.mem_append,
            List.mem_singleton]
          rintro (hin | heq)
          · exact hdis u (List.mem_cons_of_mem _ hu) hex hin
          · have hm : Prod.fst u ∈ ls.map Prod.fst := List.mem_map_of_mem Prod.fst hu
            rw [heq] at hm
            exact hls.1 hm
      · simp only [if_neg hc]
        exact ih (k + 1) st hls.2 hst (fun u hu => hdis u (List.mem_cons_of_mem _ hu))

theorem sync_hyperlinks_calls (env : Env) (wid : Nat) (ls : List (Str × Str))
    (st : WorkItemState) :
    (sync_hyperlinks env wid ls st).2 = linkCallsPure wid ls st.hyperlinks := by
  by_cases h : ls = []
  · simp [sync_hyperlinks, linkCallsPure, h]
  · simp [sync_hyperlinks, linkCallsPure, h, syncLinksLoop_calls, get_existing_hyperlinks]

theorem sync_hyperlinks_preserves (env : Env) (wid : Nat) (ls : List (Str × Str))
    (st : WorkItemState) :
    (sync_hyperlinks env wid ls st).1.comments = st.comments ∧
    (sync_hyperlinks env wid ls st).1.children = st.children := by
  by_cases h : ls = []
  · simp [sync_hyperlinks, h]
  · simpa [sync_hyperlinks, h] using
      syncLinksLoop_preserves env wid (get_existing_hyperlinks st) ls 0 st

theorem sync_hyperlinks_urls_nodup (env : Env) (wid : Nat) (ls : List (Str × Str))
    (st : WorkItemState) (hls : (ls.map Prod.fst).Nodup)
    (hst : (st.hyperlinks.map fun h => h.url).Nodup) :
    ((sync_hyperlinks env wid ls st).1.hyperlinks.map fun h => h.url).Nodup := by
  by_cases h : ls = []
  · simpa [sync_hyperlinks, h] using hst
  · simp only [sync_hyperlinks, if_neg h]
    exact syncLinksLoop_urls_nodup env wid _ ls 0 st hls hst
      (fun l _ hex => by simpa [get_existing_hyperlinks] using hex)

theorem sync_comment_calls (env : Env) (wid : Nat) (text : Str) (st : WorkItemState) :
    (sync_comment env wid text st).2 = commentCallsPure wid text st.comments := by
  by_cases h : text = []
  · simp [sync_comment, commentCallsPure, h]
  · rcases hf : st.comments.find? (fun c => containsSub COMMENT_MARKER c.text) with _ | c
    · simp [sync_comment, commentCallsPure, h, hf]
    · simp [sync_comment, commentCallsPure, h, hf]

theorem sync_comment_preserves (env : Env) (wid : Nat) (text : Str) (st : WorkItemState) :
    (sync_comment env wid text st).1.children = st.children ∧
    (sync_comment env wid text st).1.hyperlinks = st.hyperlinks := by
  by_cases h : text = []
  · simp [sync_comment, h]
  · rcases hf : st.comments.find? (fun c => containsSub COMMENT_MARKER c.text) with _ | c
    · by_cases hc : env.commentMutOk
      · simp [sync_comment, h, hf, hc]
      · simp [sync_comment, h, hf, hc]
    · by_cases hc : env.commentMutOk
      · simp [sync_comment, h, hf, hc]
      · simp [sync_comment, h, hf, hc]

theorem childStep_calls (env : Env) (pid : Nat) (ts : List Str) (st : WorkItemState) :
    (childStep env pid ts st).2
      = childCallsPure env.baseUrl pid ts st.children st.areaPath st.iterationPath := by
  by_cases h : ts = []
  · simp [childStep, childCallsPure, h]
  · rw [childStep, if_neg h, sync_child_items_calls]

theorem childStep_comments (env : Env) (pid : Nat) (ts : List Str) (st : WorkItemState) :
    (childStep env pid ts st).1.comments = st.comments := by
  by_cases h : ts = []
  · simp [childStep, h]
  · rw [childStep, if_neg h]
    exact (sync_child_items_preserves env pid ts st).1

theorem childStep_hyperlinks (env : Env) (pid : Nat) (ts : List Str) (st : WorkItemState) :
    (childStep env pid ts st).1.hyperlinks = st.hyperlinks := by
  by_cases h : ts = []
  · simp [childStep, h]
  · rw [childStep, if_neg h]
    exact (sync_child_items_preserves env pid ts st).2

theorem childStep_children_nodup (env : Env) (pid : Nat) (ts : List Str)
    (st : WorkItemState) (hts : (ts.map lowerStr).Nodup)
    (hst : (st.children.map fun c => lowerStr c.title).Nodup) :
    ((childStep env pid ts st).1.children.map fun c => lowerStr c.title).Nodup := by
  by_cases h : ts = []
  · simpa [childStep, h] using hst
  · rw [childStep, if_neg h]
    exact sync_child_items_children_nodup env pid ts st hts hst

theorem commentStep_calls (env : Env) (wid : Nat) (text : Str) (st : WorkItemState) :
    (commentStep env wid text st).2 = commentCallsPure wid text st.comments := by
  by_cases h : text = []
  · simp [commentStep, commentCallsPure, h]
  · rw [commentStep, if_neg h, sync_comment_calls]

theorem commentStep_children (env : Env) (wid : Nat) (text : Str) (st : WorkItemState) :
    (commentStep env wid text st).1.children = st.children := by
  by_cases h : text = []
  · simp [commentStep, h]
  · rw [commentStep, if_neg h]
    exact (sync_comment_preserves env wid text st).1

theorem commentStep_hyperlinks (env : Env) (wid : Nat) (text : Str) (st : WorkItemState) :
    (commentStep env wid text st).1.hyperlinks = st.hyperlinks := by
  by_cases h : text = []
  · simp [commentStep, h]
  · rw [commentStep, if_neg h]
    exact (sync_comment_preserves env wid text st).2

theorem linkStep_calls (env : Env) (wid : Nat) (ls : List (Str × Str)) (st : WorkItemState) :
    (linkStep env wid ls st).2 = linkCallsPure wid ls st.hyperlinks := by
  by_cases h : ls = []
  · simp [linkStep, linkCallsPure, h]
  · rw [linkStep, if_neg h, sync_hyperlinks_calls]

theorem linkStep_children (env : Env) (wid : Nat) (ls : List (Str × Str))
    (st : WorkItemState) :
    (linkStep env wid ls st).1.children = st.children := by
  by_cases h : ls = []
  · simp [linkStep, h]
  · rw [linkStep, if_neg h]
    exact (sync_hyperlinks_preserves env wid ls st).2

theorem linkStep_urls_nodup (env : Env) (wid : Nat) (ls : List (Str × Str))
    (st : WorkItemState) (hls : (ls.map Prod.fst).Nodup)
    (hst : (st.hyperlinks.map fun h => h.url).Nodup) :
    ((linkStep env wid ls st).1.hyperlinks.map fun h => h.url).Nodup := by
  by_cases h : ls = []
  · simpa [linkStep, h] using hst
  · rw [linkStep, if_neg h]
    exact sync_hyperlinks_urls_nodup env wid ls st hls hst

theorem extract_card_cons_ne_nil (desc : Str) (n : Nat)
    (hcard : extract_ado_card_number desc = some n) : desc ≠ [] := by
  intro he
  subst he
  rw [extract_ado_card_number] at hcard
  simp [searchFrom] at hcard

theorem runSync_patch_failed (env : Env) (desc : Str) (st : WorkItemState) (n : Nat)
    (hcard : extract_ado_card_number desc = some n) (hn : n ≠ 0)
    (hbad : env.descPatchOk = false) :
    runSync env desc st
      = ⟨st, [AdoCall.updateWorkItem n (descTagsOps desc (extract_tags desc))], 1,
         some RunErr.descPatchFailed⟩ := by
  cases desc with
  | nil => exact absurd rfl (extract_card_cons_ne_nil [] n hcard)
  | cons c rest => simp [runSync, hcard, hn, hbad]

theorem runSync_ok_calls (env : Env) (desc : Str) (st : WorkItemState) (n : Nat)
    (hcard : extract_ado_card_number desc = some n) (hn : n ≠ 0)
    (hok : env.descPatchOk = true) :
    (runSync env desc st).calls
      = AdoCall.updateWorkItem n (descTagsOps desc (extract_tags desc)) ::
        (childCallsPure env.baseUrl n (extract_children desc)
            st.children st.areaPath st.iterationPath
         ++ commentCallsPure n ((extract_comment desc).getD []) st.comments
         ++ linkCallsPure n (extract_links desc) st.hyperlinks) := by
  cases desc with
  | nil => exact absurd rfl (extract_card_cons_ne_nil [] n hcard)
  | cons c rest =>
    simp [runSync, hcard, hn, hok, childStep_calls, commentStep_calls, linkStep_calls,
      childStep_comments, childStep_hyperlinks, commentStep_hyperlinks]

theorem runSync_ok_exit (env : Env) (desc : Str) (st : WorkItemState) (n : Nat)
    (hcard : extract_ado_card_number desc = some n) (hn : n ≠ 0)
    (hok : env.descPatchOk = true) :
    (runSync env desc st).exitCode = 0 ∧ (runSync env desc st).err = none := by
  cases desc with
  | nil => exact absurd rfl (extract_card_cons_ne_nil [] n hcard)
  | cons c rest =>
    constructor
    · simp [runSync, hcard, hn, hok]
    · simp [runSync, hcard, hn, hok]

theorem runSync_ok_state (env : Env) (desc : Str) (st : WorkItemState) (n : Nat)
    (hcard : extract_ado_card_number desc = some n) (hn : n ≠ 0)
    (hok : env.descPatchOk = true) :
    (runSync env desc st).state
      = (linkStep env n (extract_links desc)
          (commentStep env n ((extract_comment desc).getD [])
            (childStep env n (extract_children desc)
              { st with description := desc,
                        tags := if extract_tags desc = [] then none
                                else some (joinTags (extract_tags desc)) }).1).1).1 := by
  cases desc with
  | nil => exact absurd rfl (extract_card_cons_ne_nil [] n hcard)
  | cons c rest => simp [runSync, hcard, hn, hok]

theorem runSync_state_nodup (env : Env) (desc : Str) (st : WorkItemState)
    (hc : ((extract_children desc).map lowerStr).Nodup)
    (hl : ((extract_links desc).map Prod.fst).Nodup)
    (h1 : (st.children.map fun c => lowerStr c.title).Nodup)
    (h2 : (st.hyperlinks.map fun h => h.url).Nodup) :
    (((runSync env desc st).state.children.map fun c => lowerStr c.title).Nodup)
    ∧ (((runSync env desc st).state.hyperlinks.map fun h => h.url).Nodup) := by
  rcases hcard : extract_ado_card_number desc with _ | n
  · have hs : (runSync env desc st).state = st := by
      cases desc with
      | nil => rfl
      | cons c rest => simp [runSync, hcard]
    rw [hs]
    exact ⟨h1, h2⟩
  · have hne : desc ≠ [] := extract_card_cons_ne_nil desc n hcard
    by_cases hn : n = 0
    · subst hn
      have hs : (runSync env desc st).state = st := by
        cases desc with
        | nil => rfl
        | cons c rest => simp [runSync, hcard]
      rw [hs]
      exact ⟨h1, h2⟩
    · by_cases hok : env.descPatchOk
      · rw [runSync_ok_state env desc st n hcard hn hok]
        constructor
        · rw [linkStep_children, commentStep_children]
          exact childStep_children_nodup env n (extract_children desc) _ hc h1
        · refine linkStep_urls_nodup env n (extract_links desc) _ hl ?_
          rw [commentStep_hyperlinks, childStep_hyperlinks]
          exact h2
      · simp only [Bool.not_eq_true] at hok
        rw [runSync_patch_failed env desc st n hcard hn hok]
        exact ⟨h1, h2⟩

/-- C10: for the empty input string as PR description, the program exits
non-zero with the empty-description error, with an empty remote-call trace
(so no mutation was attempted) and the remote state untouched; the result
is produced before any directive extraction is consulted. -/
theorem c10_empty_description (env : Env) (st : WorkItemState) :
    runSync env [] st = ⟨st, [], 1, some RunErr.emptyDescription⟩ := rfl

/-- C9: when the first `ADO Card: <digits>` match parses to 0, the run
produces exactly the missing-card-id outcome — the same error signal, exit
code 1, no remote calls, state untouched — even though a digits match
exists in the text (Python's `if not ado_card_number` treats 0 as
missing). -/
theorem c9_card_id_zero (env : Env) (st : WorkItemState) (desc : Str)
    (h0 : extract_ado_card_number desc = some 0) :
    runSync env desc st = ⟨st, [], 1, some RunErr.missingCardNumber⟩ := by
  cases desc with
  | nil => exact absurd h0 (by rw [extract_ado_card_number]; simp [searchFrom])
  | cons c rest => simp [runSync, h0]

/-- C9 witness: the description "ADO Card: 0" extracts card id 0 and the
run reports the missing-card error with no calls. -/
theorem c9_card_id_zero_witness :
    runSync allOkEnv (str "ADO Card: 0") emptyWI
      = ⟨emptyWI, [], 1, some RunErr.missingCardNumber⟩ :=
  c9_card_id_zero allOkEnv emptyWI (str "ADO Card: 0") (by decide)

/-- C8: when the case-insensitive pattern `ADO Card: <digits>` does not
occur in a non-empty input, extraction yields the no-card-id signal and the
run stops with the missing-card error, an empty call trace (no mutation)
and the state untouched. -/
theorem c8_no_card_id (env : Env) (st : WorkItemState) (desc : Str)
    (hne : desc ≠ []) (hno : adoCardOccurs desc = false) :
    extract_ado_card_number desc = none ∧
    runSync env desc st = ⟨st, [], 1, some RunErr.missingCardNumber⟩ := by
  have hx := card_occurs_false_search_none desc hno
  refine ⟨hx, ?_⟩
  cases desc with
  | nil => exact absurd rfl hne
  | cons c rest => simp [runSync, hx]

/-- C8 witness: "just words" contains no card pattern; extraction yields
none and the run exits 1 with no calls. -/
theorem c8_no_card_id_witness :
    extract_ado_card_number (str "just words") = none ∧
    runSync allOkEnv (str "just words") emptyWI
      = ⟨emptyWI, [], 1, some RunErr.missingCardNumber⟩ :=
  c8_no_card_id allOkEnv emptyWI (str "just words") (by decide) (by decide)

/-- C2 (code bug): on an input whose `ADO Tags:` line has an empty value
but is followed by another line, the extractor does not return the empty
list — the `\s*` of the tags regex crosses the newline and the next
non-whitespace line is captured as the tag value, so the reconciler then
issues a replace of the Tags field instead of the remove the claim
requires.  When the empty-valued tags line ends the input, the list is
empty and the remove operation is issued, as the claim intends. -/
theorem c2_empty_tags_directive :
    extract_tags c2Desc = [str "hello"] ∧
    descTagsOps c2Desc (extract_tags c2Desc)
      = [PatchOp.replaceField "/fields/System.Description" c2Desc,
         PatchOp.replaceField "/fields/System.Tags" (str "hello")] ∧
    extract_tags (str "ADO Tags:") = [] ∧
    descTagsOps (str "ADO Tags:") (extract_tags (str "ADO Tags:"))
      = [PatchOp.replaceField "/fields/System.Description" (str "ADO Tags:"),
         PatchOp.removeField "/fields/System.Tags"] := by
  refine ⟨by decide, by decide, by decide, by decide⟩

/-- C3: the end-to-end scenario — against an empty work item #42, the run
issues exactly one update patch (replace Description with the full raw
text, replace Tags with "bug; urgent"), the two read calls of the child
reconciler, and two child creations titled "write tests" and "update docs"
(no placement ops, the parent's fields being empty); no comment or
hyperlink call of any kind; exit code 0. -/
theorem c3_end_to_end_scenario :
    runSync allOkEnv c3Desc emptyWI =
      ⟨{ emptyWI with
           description := c3Desc,
           tags := some (str "bug; urgent"),
           children := [⟨100, str "write tests"⟩, ⟨101, str "update docs"⟩] },
       [AdoCall.updateWorkItem 42
          [PatchOp.replaceField "/fields/System.Description" c3Desc,
           PatchOp.replaceField "/fields/System.Tags" (str "bug; urgent")],
        AdoCall.queryChildren 42,
        AdoCall.getWorkItem 42,
        AdoCall.createWorkItem "Task"
          [PatchOp.addField "/fields/System.Title" (str "write tests"),
           PatchOp.addRelation "System.LinkTypes.Hierarchy-Reverse"
             (str "BASE/wit/workitems/42") none],
        AdoCall.createWorkItem "Task"
          [PatchOp.addField "/fields/System.Title" (str "update docs"),
           PatchOp.addRelation "System.LinkTypes.Hierarchy-Reverse"
             (str "BASE/wit/workitems/42") none]],
       0, none⟩ := by decide

/-- C1 counterexample: with a DirectiveSet requesting the child titles
"Add tests" and "ADD TESTS" and twice the link url https://x, one
application of the reconciliation against an empty work item — every
mutation succeeding — leaves two children whose titles are equal
case-insensitively and two hyperlink relations with the same url: the
existing-state snapshots are taken once, before each loop, so duplicates
inside the DirectiveSet are not caught. -/
theorem c1_uniqueness_counterexample :
    ¬ ((((runSync allOkEnv c1Desc emptyWI).state.children.map
          fun c => lowerStr c.title).Nodup)
       ∧ (((runSync allOkEnv c1Desc emptyWI).state.hyperlinks.map
          fun h => h.url).Nodup)) := by decide

/-- C1 amended: when the requested child titles are pairwise distinct
case-insensitively and the requested link urls are pairwise distinct,
applying the reconciliation any number of times — with any per-application
success pattern — to a remote state whose children have pairwise distinct
case-insensitive titles and whose hyperlinks have pairwise distinct urls
preserves both properties. -/
theorem c1_uniqueness_amended (envs : List Env) (desc : Str) (st : WorkItemState)
    (hc : ((extract_children desc).map lowerStr).Nodup)
    (hl : ((extract_links desc).map Prod.fst).Nodup)
    (h1 : (st.children.map fun c => lowerStr c.title).Nodup)
    (h2 : (st.hyperlinks.map fun h => h.url).Nodup) :
    ((applyRuns envs desc st).children.map fun c => lowerStr c.title).Nodup
    ∧ ((applyRuns envs desc st).hyperlinks.map fun h => h.url).Nodup := by
  induction envs generalizing st with
  | nil => exact ⟨h1, h2⟩
  | cons e es ih =>
    have hu : applyRuns (e :: es) desc st = applyRuns es desc (runSync e desc st).state := rfl
    rw [hu]
    have hstep := runSync_state_nodup e desc st hc hl h1 h2
    exact ih _ hstep.1 hstep.2

/-- C1 amended, witness: two all-success applications of the end-to-end
scenario directives leave distinct case-insensitive child titles and
distinct link urls. -/
theorem c1_uniqueness_amended_witness :
    ((applyRuns [allOkEnv, allOkEnv] c3Desc emptyWI).children.map
        fun c => lowerStr c.title).Nodup
    ∧ ((applyRuns [allOkEnv, allOkEnv] c3Desc emptyWI).hyperlinks.map
        fun h => h.url).Nodup :=
  c1_uniqueness_amended [allOkEnv, allOkEnv] c3Desc emptyWI
    (by decide) (by decide) (by decide) (by decide)

theorem createCallsOf_map (f : Str → List PatchOp) (ts : List Str) :
    createCallsOf (ts.map fun t => AdoCall.createWorkItem "Task" (f t)) = ts.map f := by
  induction ts with
  | nil => rfl
  | cons t ts ih => simp [createCallsOf, ih]

theorem updateCallsOf_map (wid : Nat) (f : Str × Str → List PatchOp)
    (ls : List (Str × Str)) :
    updateCallsOf (ls.map fun l => AdoCall.updateWorkItem wid (f l)) = ls.map f := by
  induction ls with
  | nil => rfl
  | cons l ls ih => simp [updateCallsOf, ih]

/-- C4: the child reconciler's creation calls are exactly those for the
requested titles with no case-insensitive match among the existing children
(the skip condition being membership of the lowercased title among the
lowercased existing titles, i.e. existence of a case-insensitively equal
existing child); every creation document carries the requested title in its
original casing as its first operation, and carries the parent's AreaPath /
IterationPath exactly when those fields are non-empty. -/
theorem c4_child_reconciler (env : Env) (pid : Nat) (titles : List Str)
    (st : WorkItemState) :
    createCallsOf (sync_child_items env pid titles st).2
      = (titles.filter fun t =>
          !(decide (lowerStr t ∈ get_existing_child_titles st.children))).map
          (fun t => childCreateOps env.baseUrl pid st.areaPath st.iterationPath t)
    ∧ (∀ t : Str, lowerStr t ∈ get_existing_child_titles st.children
          ↔ ∃ c ∈ st.children, lowerStr c.title = lowerStr t)
    ∧ (∀ base : Str, ∀ p : Nat, ∀ a i t : Str,
        (childCreateOps base p a i t).head?
            = some (PatchOp.addField "/fields/System.Title" t)
        ∧ (PatchOp.addField "/fields/System.AreaPath" a ∈ childCreateOps base p a i t
            ↔ a ≠ [])
        ∧ (PatchOp.addField "/fields/System.IterationPath" i ∈ childCreateOps base p a i t
            ↔ i ≠ [])) := by
  refine ⟨?_, ?_, ?_⟩
  · by_cases h : titles = []
    · simp [sync_child_items, createCallsOf, h]
    · rw [sync_child_items, if_neg h]
      simp only [createCallsOf, syncChildrenLoop_calls]
      rw [createCallsOf_map]
  · intro t
    simp [get_existing_child_titles]
  · intro base p a i t
    refine ⟨rfl, ?_, ?_⟩
    · by_cases ha : a = []
      · subst ha
        simp [childCreateOps]
      · simp [childCreateOps, ha]
    · by_cases hi : i = []
      · subst hi
        simp [childCreateOps]
      · simp [childCreateOps, hi]

/-- C4 witness: against a parent with area path "AreaZ" and an existing
child "ADD TESTS", requesting "Add tests" and "New item" creates only
"New item", in its original casing and with the inherited area path. -/
theorem c4_child_reconciler_witness :
    createCallsOf (sync_child_items allOkEnv 7 [str "Add tests", str "New item"] c4State).2
      = [[PatchOp.addField "/fields/System.Title" (str "New item"),
          PatchOp.addRelation "System.LinkTypes.Hierarchy-Reverse"
            (str "BASE/wit/workitems/7") none,
          PatchOp.addField "/fields/System.AreaPath" (str "AreaZ")]] :=
  ((c4_child_reconciler allOkEnv 7 [str "Add tests", str "New item"] c4State).1).trans
    (by decide)

/-- C5: the hyperlink reconciler's add calls are exactly those for the
requested pairs whose url is not among the urls of the existing
hyperlink relations — the display name plays no part in the decision —
and in particular requesting (https://x, "NameA") when (https://x,
"NameB") already exists issues no mutation and leaves the state
unchanged. -/
theorem c5_hyperlink_reconciler (env : Env) (wid : Nat) (links : List (Str × Str))
    (st : WorkItemState) :
    updateCallsOf (sync_hyperlinks env wid links st).2
      = (links.filter fun l => !(decide (l.1 ∈ get_existing_hyperlinks st))).map
          (fun l => linkAddOps l.1 l.2)
    ∧ (∀ u : Str, u ∈ get_existing_hyperlinks st ↔ ∃ h ∈ st.hyperlinks, h.url = u)
    ∧ sync_hyperlinks allOkEnv 1 [(str "https://x", str "NameA")] c5State
        = (c5State, [AdoCall.getWorkItem 1]) := by
  refine ⟨?_, ?_, by decide⟩
  · by_cases h : links = []
    · simp [sync_hyperlinks, updateCallsOf, h]
    · rw [sync_hyperlinks, if_neg h]
      simp only [updateCallsOf, syncLinksLoop_calls]
      rw [updateCallsOf_map]
  · intro u
    simp [get_existing_hyperlinks]

/-- C5 witness: with https://x already linked under a different name,
requesting (https://x, "NameA") and (https://y, "N") adds only the
https://y relation. -/
theorem c5_hyperlink_reconciler_witness :
    updateCallsOf (sync_hyperlinks allOkEnv 1
        [(str "https://x", str "NameA"), (str "https://y", str "N")] c5State).2
      = [[PatchOp.addRelation "Hyperlink" (str "https://y") (some (str "N"))]] :=
  ((c5_hyperlink_reconciler allOkEnv 1
      [(str "https://x", str "NameA"), (str "https://y", str "N")] c5State).1).trans
    (by decide)

theorem find_first_true (p : WIComment → Bool) (l : List WIComment) (k : Nat)
    (hk : k < l.length) (hp : p (l.get ⟨k, hk⟩) = true)
    (hmin : (l.take k).all (fun c => !(p c)) = true) :
    l.find? p = some (l.get ⟨k, hk⟩) := by
  induction l generalizing k with
  | nil => exact absurd hk (Nat.not_lt_zero k)
  | cons c cs ih =>
    cases k with
    | zero =>
      have hp0 : p c = true := hp
      rw [List.find?_cons_of_pos _ hp0]
      rfl
    | succ k =>
      rw [List.take_succ_cons, List.all_cons, Bool.and_eq_true] at hmin
      have h0 : p c = false := by simpa using hmin.1
      rw [List.find?_cons_of_neg _ (by simp [h0])]
      exact ih k (Nat.lt_of_succ_lt_succ hk) hp hmin.2

/-- C6: the comment reconciler composes marker + newline + text; with a
non-empty directive it updates the body of the first existing comment
whose text contains the marker as a substring — issuing no creation —
and creates exactly one new comment with the composed text only when no
existing comment contains the marker; with an empty or absent directive it
does nothing (main skips the reconciler and the reconciler itself also
returns immediately on empty text). -/
theorem c6_comment_reconciler (env : Env) (wid : Nat) (text : Str) (st : WorkItemState)
    (hne : text ≠ []) :
    sync_comment env wid [] st = (st, [])
    ∧ ((∀ c ∈ st.comments, containsSub COMMENT_MARKER c.text = false) →
        (sync_comment env wid text st).2
          = [AdoCall.getComments wid,
             AdoCall.addComment wid (COMMENT_MARKER ++ '\n' :: text)])
    ∧ (∀ k : Nat, ∀ hk : k < st.comments.length,
        containsSub COMMENT_MARKER (st.comments.get ⟨k, hk⟩).text = true →
        (st.comments.take k).all (fun c => !(containsSub COMMENT_MARKER c.text)) = true →
        (sync_comment env wid text st).2
          = [AdoCall.getComments wid,
             AdoCall.updateComment wid (st.comments.get ⟨k, hk⟩).id
               (COMMENT_MARKER ++ '\n' :: text)]) := by
  refine ⟨rfl, ?_, ?_⟩
  · intro hall
    have hf : st.comments.find? (fun c => containsSub COMMENT_MARKER c.text) = none :=
      List.find?_eq_none.mpr (fun c hc => by simp [hall c hc])
    rw [sync_comment, if_neg hne, hf]
  · intro k hk hp hmin
    have hf := find_first_true (fun c => containsSub COMMENT_MARKER c.text)
      st.comments k hk hp hmin
    rw [sync_comment, if_neg hne, hf]

/-- C6 witness: with comments [plain, marked #2, marked #3] the reconciler
updates comment #2 — the first marker-carrying one — with the composed
text, and creates nothing. -/
theorem c6_comment_reconciler_witness :
    (sync_comment allOkEnv 5 (str "note") c6State).2
      = [AdoCall.getComments 5,
         AdoCall.updateComment 5 2 (COMMENT_MARKER ++ '\n' :: str "note")] := by
  have h := (c6_comment_reconciler allOkEnv 5 (str "note") c6State (by decide)).2.2
    1 (by decide) (by decide) (by decide)
  exact h.trans (by decide)

/-- C7: failure of the mandatory description/tags patch is fatal — the run
exits 1 right after that single call, with no child, comment or hyperlink
call issued and the state untouched; when the patch succeeds the run exits
0 with no error, and the full call trace is the same for every environment
that accepts the patch, whatever its per-item child, comment or hyperlink
failures — so failed items never suppress the remaining calls or change
the exit code. -/
theorem c7_failure_propagation (env : Env) (desc : Str) (st : WorkItemState) (n : Nat)
    (hcard : extract_ado_card_number desc = some n) (hn : n ≠ 0) :
    (env.descPatchOk = false →
      runSync env desc st
        = ⟨st, [AdoCall.updateWorkItem n (descTagsOps desc (extract_tags desc))], 1,
           some RunErr.descPatchFailed⟩)
    ∧ (env.descPatchOk = true →
        (runSync env desc st).exitCode = 0 ∧ (runSync env desc st).err = none
        ∧ ∀ env2 : Env, env2.baseUrl = env.baseUrl → env2.descPatchOk = true →
            (runSync env2 desc st).calls = (runSync env desc st).calls
            ∧ (runSync env2 desc st).exitCode = 0) := by
  constructor
  · intro hbad
    exact runSync_patch_failed env desc st n hcard hn hbad
  · intro hok
    refine ⟨(runSync_ok_exit env desc st n hcard hn hok).1,
            (runSync_ok_exit env desc st n hcard hn hok).2, ?_⟩
    intro env2 hbase hok2
    refine ⟨?_, (runSync_ok_exit env2 desc st n hcard hn hok2).1⟩
    rw [runSync_ok_calls env desc st n hcard hn hok,
        runSync_ok_calls env2 desc st n hcard hn hok2, hbase]

/-- C7 witness: a rejected description/tags patch ends the run after that
one call with exit 1; the same run with an accepting remote exits 0. -/
theorem c7_failure_propagation_witness :
    runSync failPatchEnv (str "ADO Card: 5") emptyWI
      = ⟨emptyWI,
         [AdoCall.updateWorkItem 5
            [PatchOp.replaceField "/fields/System.Description" (str "ADO Card: 5"),
             PatchOp.removeField "/fields/System.Tags"]],
         1, some RunErr.descPatchFailed⟩
    ∧ (runSync allOkEnv (str "ADO Card: 5") emptyWI).exitCode = 0 := by
  constructor
  · exact ((c7_failure_propagation failPatchEnv (str "ADO Card: 5") emptyWI 5 (by decide)
      (by decide)).1 rfl).trans (by decide)
  · exact ((c7_failure_propagation allOkEnv (str "ADO Card: 5") emptyWI 5 (by decide)
      (by decide)).2 rfl).1

end AdoSync
